import Mathlib

/-!
Verification development for the Suna Mac deployment scripts
(`setup_mac.py`, `start_mac.py`, `test_mac_deployment.py`).

The Python sources are shallowly embedded: each subprocess call, file
write, health probe and progress save becomes an explicit event in a
trace, and the control flow of the scripts is translated function by
function.  External effects (subprocess outcomes, HTTP reachability,
file-system contents) are parameters of the embedded functions.  The
file lists all definitions first and all theorems afterwards.
-/

namespace Suna

/-! ### start_mac.py: MacSunaManager service commands

`stop_services` runs one subprocess (`docker compose -f <file> down`,
`check=True`; a `CalledProcessError` is caught and turns into `False`).
`start_services` runs two subprocesses (`docker compose ... pull` then
`docker compose ... up -d`, both `check=True` inside one `try`), then a
health check that uses `urllib` only (no subprocess).
`restart_services` calls `stop_services` and, only when it returned
`True`, sleeps and calls `start_services`.
The parameter `r` gives the success of each compose subprocess; each
function returns the list of compose subprocess invocations it made, in
order, together with its boolean return value. -/

inductive ComposeCmd
  | down
  | pull
  | up
deriving DecidableEq

def stop_services (r : ComposeCmd → Bool) : List ComposeCmd × Bool :=
  ([ComposeCmd.down], r ComposeCmd.down)

def start_services (r : ComposeCmd → Bool) : List ComposeCmd × Bool :=
  if r ComposeCmd.pull then
    ([ComposeCmd.pull, ComposeCmd.up], r ComposeCmd.up)
  else
    ([ComposeCmd.pull], false)

def restart_services (r : ComposeCmd → Bool) : List ComposeCmd × Bool :=
  if (stop_services r).2 then
    ((stop_services r).1 ++ (start_services r).1, (start_services r).2)
  else
    ((stop_services r).1, false)

/-- `MacSunaManager.signal_handler`: prints a message, calls
`stop_services` (whatever its result), then calls `sys.exit(0)`.
Returns the compose invocations of the teardown and the exit code. -/
def signal_handler (r : ComposeCmd → Bool) : List ComposeCmd × Nat :=
  ((stop_services r).1, 0)

/-! ### start_mac.py: prerequisites and CLI dispatch

A spawned external command either runs and exits with a code, or its
binary cannot be located (Python raises `FileNotFoundError` in that
case; a nonzero exit with `check=True` raises `CalledProcessError`). -/

inductive SpawnOutcome
  | exited (code : Nat)
  | binMissing
deriving DecidableEq

inductive PyExn
  | calledProcessError
  | fileNotFoundError
deriving DecidableEq

/-- The environment a `start_mac.py` invocation runs against. -/
structure StartEnv where
  dockerInfo : SpawnOutcome
  openApp : SpawnOutcome
  dockerInfoRetry : Nat → SpawnOutcome
  backendEnvExists : Bool
  frontendEnvExists : Bool
  svc : ComposeCmd → Bool

/-- The `for i in range(30)` wait loop of `check_prerequisites`: retries
`docker info` until it exits 0, sleeping between failed attempts; the
`for ... else` reports failure after 30 attempts.  Only
`CalledProcessError` is caught, so a missing binary propagates. -/
def dockerWaitLoop (retry : Nat → SpawnOutcome) : Nat → Nat → Except PyExn Bool
  | _, 0 => Except.ok false
  | i, fuel + 1 =>
    match retry i with
    | SpawnOutcome.binMissing => Except.error PyExn.fileNotFoundError
    | SpawnOutcome.exited c =>
      if c = 0 then Except.ok true else dockerWaitLoop retry (i + 1) fuel

def env_files_exist (env : StartEnv) : Bool :=
  env.backendEnvExists && env.frontendEnvExists

/-- `MacSunaManager.check_prerequisites`.  The `try` around
`subprocess.run(["docker", "info"], check=True)` catches only
`subprocess.CalledProcessError`; when the docker binary is absent the
spawn raises `FileNotFoundError`, which is not caught and propagates to
the caller (`Except.error`).  Otherwise the function falls through to
the compose-file fallback (which only selects a file name) and the
checks that `backend/.env` and `frontend/.env.local` exist. -/
def check_prerequisites (env : StartEnv) : Except PyExn Bool :=
  match env.dockerInfo with
  | SpawnOutcome.binMissing => Except.error PyExn.fileNotFoundError
  | SpawnOutcome.exited c =>
    if c = 0 then Except.ok (env_files_exist env)
    else
      match env.openApp with
      | SpawnOutcome.binMissing => Except.error PyExn.fileNotFoundError
      | SpawnOutcome.exited oc =>
        if oc = 0 then
          match dockerWaitLoop env.dockerInfoRetry 0 30 with
          | Except.error e => Except.error e
          | Except.ok true => Except.ok (env_files_exist env)
          | Except.ok false => Except.ok false
        else Except.ok false

inductive MainResult
  | exitCode (code : Nat)
  | uncaught (e : PyExn)
deriving DecidableEq

/-- Observable outcome of one `main` invocation of start_mac.py.
`errorPrinted` records whether `main` itself printed an error message
(unknown command, or prerequisites not met). -/
structure CliOutcome where
  result : MainResult
  usagePrinted : Bool
  prereqChecked : Bool
  errorPrinted : Bool
deriving DecidableEq

def knownCommands : List String :=
  ["start", "stop", "restart", "status", "logs", "follow", "open", "info",
   "cleanup", "help"]

/-- The `if/elif` chain at the bottom of `main` (reached after the
prerequisite check succeeded).  `start`, `stop` and `restart` call
`sys.exit(1)` on failure; `status`, `logs`, `follow`, `open` and
`cleanup` fall through and exit 0; an unrecognized command prints an
error and calls `sys.exit(1)`. -/
def dispatch (command : String) (env : StartEnv) : CliOutcome :=
  if command = "start" then
    { result := MainResult.exitCode (if (start_services env.svc).2 then 0 else 1),
      usagePrinted := false, prereqChecked := true, errorPrinted := false }
  else if command = "stop" then
    { result := MainResult.exitCode (if (stop_services env.svc).2 then 0 else 1),
      usagePrinted := false, prereqChecked := true, errorPrinted := false }
  else if command = "restart" then
    { result := MainResult.exitCode (if (restart_services env.svc).2 then 0 else 1),
      usagePrinted := false, prereqChecked := true, errorPrinted := false }
  else if command ∈ ["status", "logs", "follow", "open", "cleanup"] then
    { result := MainResult.exitCode 0,
      usagePrinted := false, prereqChecked := true, errorPrinted := false }
  else
    { result := MainResult.exitCode 1,
      usagePrinted := false, prereqChecked := true, errorPrinted := true }

/-- `main` of start_mac.py: the command is `sys.argv[1]` when present,
else `"start"`; `help` shows usage and returns (exit 0) before any
prerequisite check; `info` also skips the prerequisite check; every
other command first runs `check_prerequisites`, exiting 1 when it
returns `False` and crashing with the exception when it raises. -/
def start_mac_main (args : List String) (env : StartEnv) : CliOutcome :=
  let command := args.headD "start"
  if command = "help" then
    { result := MainResult.exitCode 0, usagePrinted := true,
      prereqChecked := false, errorPrinted := false }
  else if command = "info" then
    { result := MainResult.exitCode 0, usagePrinted := false,
      prereqChecked := false, errorPrinted := false }
  else
    match check_prerequisites env with
    | Except.error e =>
      { result := MainResult.uncaught e, usagePrinted := false,
        prereqChecked := true, errorPrinted := false }
    | Except.ok false =>
      { result := MainResult.exitCode 1, usagePrinted := false,
        prereqChecked := true, errorPrinted := true }
    | Except.ok true => dispatch command env

/-- `MacSunaSetup.check_dependencies` (setup_mac.py): tries each tool
with `check=True`, catching `(CalledProcessError, FileNotFoundError)` —
so both a nonzero exit and a missing binary are classified into the
returned `missing` list without raising. -/
def dependencyNames : List String :=
  ["git", "python3.11", "node", "npm", "docker", "supabase", "uv"]

def check_dependencies (r : String → SpawnOutcome) : List String :=
  dependencyNames.filter (fun d => !(r d == SpawnOutcome.exited 0))

/-! ### Health checks (start_mac.py / setup_mac.py `check_service_health`)

Both scripts iterate once over a fixed dict of services, issuing a
single bounded-timeout `urllib.request.urlopen` per service; a response
marks the service healthy, any exception prints a warning.  There is no
retry loop and no sleeping.  `h url` tells whether the probe of `url`
succeeds. -/

inductive HealthEvent
  | request (url : String)
  | sleepSec (n : Nat)
  | healthyReport (name : String)
  | warnReport (name : String)
deriving DecidableEq

def check_service_health_list (h : String → Bool) :
    List (String × String) → List HealthEvent
  | [] => []
  | s :: rest =>
    HealthEvent.request s.2 ::
      (if h s.2 then HealthEvent.healthyReport s.1 else HealthEvent.warnReport s.1) ::
      check_service_health_list h rest

def macHealthServices : List (String × String) :=
  [("Frontend", "http://localhost:3000"),
   ("Backend", "http://localhost:8000/health")]

def check_service_health (h : String → Bool) : List HealthEvent :=
  check_service_health_list h macHealthServices

/-- Modelled from the spec: `HealthChecker.poll` does not exist in the
sources; the spec describes it as "for each attempt (1..maxAttempts),
issue a bounded-timeout request to every not-yet-healthy service; mark
healthy on a successful response; after the attempt, if all services
are healthy, stop early (no extra sleeping); otherwise sleep `interval`
and retry", with every service still unhealthy after the budget
reported unhealthy.  This definition renders that contract as an event
trace for comparison with the code above. -/
def healthPollSpec (h : String → Bool) (interval : Nat) :
    Nat → List (String × String) → List HealthEvent
  | 0, pending => pending.map (fun s => HealthEvent.warnReport s.1)
  | n + 1, pending =>
    pending.map (fun s => HealthEvent.request s.2) ++
    (pending.filter (fun s => h s.2)).map (fun s => HealthEvent.healthyReport s.1) ++
    (let remaining := pending.filter (fun s => !h s.2)
     if remaining.isEmpty then []
     else if n = 0 then remaining.map (fun s => HealthEvent.warnReport s.1)
     else HealthEvent.sleepSec interval :: healthPollSpec h interval n remaining)

def isRequestEvent : HealthEvent → Bool
  | HealthEvent.request _ => true
  | _ => false

def isSleepEvent : HealthEvent → Bool
  | HealthEvent.sleepSec _ => true
  | _ => false

/-! ### setup_mac.py: MacSunaSetup.run_mac_setup

The orchestrator body is a chain of fifteen guarded blocks
`if self.current_step <= i: <executor for step i>; self.save_progress(i)`
for `i = 1..15`, inside one `try`.  A `KeyboardInterrupt` or a failing
step returns `False` without any further save (the `except` branches
only print); after block 15 the progress record is deleted
(`cleanup_progress`) and the run returns `True`.

Modelled from the spec: `load_progress`, `save_progress` and
`cleanup_progress` are defined in the base class in `setup.py`, which is
not part of the sources.  Per the spec, `Progress.current_step` is the
next step to execute (not the last completed one), so the
`save_progress(i)` call made after step `i` succeeds persists a record
whose `current_step` is `i + 1`, and `load_progress` yields exactly that
persisted value as the resume point `cs` compared in the guards.  The
`SetupEvent.save` event below records the persisted `current_step`. -/

inductive StepResult
  | success
  | failure
  | interrupt
deriving DecidableEq

inductive SetupEvent
  | invoke (i : Nat)
  | save (current_step : Nat)
  | cleanup
deriving DecidableEq

/-- Trace of one run over the guarded blocks with indices `L`:
a block `i` runs only when `cs ≤ i`; a successful executor is followed
by a save persisting `current_step = i + 1`; a failing or interrupted
executor ends the run with no save. -/
def runStepsTrace (cs : Nat) (exec : Nat → StepResult) : List Nat → List SetupEvent
  | [] => [SetupEvent.cleanup]
  | i :: rest =>
    if cs ≤ i then
      match exec i with
      | StepResult.success =>
          SetupEvent.invoke i :: SetupEvent.save (i + 1) :: runStepsTrace cs exec rest
      | _ => [SetupEvent.invoke i]
    else runStepsTrace cs exec rest

/-- Whether the run returns `True` (all guarded blocks succeeded). -/
def runStepsOk (cs : Nat) (exec : Nat → StepResult) : List Nat → Bool
  | [] => true
  | i :: rest =>
    if cs ≤ i then
      match exec i with
      | StepResult.success => runStepsOk cs exec rest
      | _ => false
    else runStepsOk cs exec rest

/-- The fifteen step indices of the Mac setup, in guard order. -/
def macSetupSteps : List Nat := List.range' 1 15

def run_mac_setup (cs : Nat) (exec : Nat → StepResult) : List SetupEvent × Bool :=
  (runStepsTrace cs exec macSetupSteps, runStepsOk cs exec macSetupSteps)

/-- `main` of setup_mac.py: exit 0 when the run returned `True`, else 1. -/
def setup_main (cs : Nat) (exec : Nat → StepResult) : Nat :=
  if (run_mac_setup cs exec).2 then 0 else 1

def invokeOf : SetupEvent → Option Nat
  | SetupEvent.invoke i => some i
  | _ => none

def invokedListAux (cs : Nat) (exec : Nat → StepResult) (L : List Nat) : List Nat :=
  (runStepsTrace cs exec L).filterMap invokeOf

/-- The step indices whose executor is invoked, in execution order. -/
def invokedSteps (cs : Nat) (exec : Nat → StepResult) : List Nat :=
  (run_mac_setup cs exec).1.filterMap invokeOf

/-! ### setup_mac.py: environment-file generation

`configure_mac_env_files` builds the backend dict with Python dict
literals and `**` unpacking (insertion order preserved; a repeated key
keeps its first position and takes the last value), renders it to text
line by line, and writes both files with a plain truncating
`open(path, "w")`. -/

structure SetupConfig where
  setup_method : String
  supabase : List (String × String)
  llm : List (String × String)
  search : List (String × String)
  rapidapi : List (String × String)
  smithery : List (String × String)
  qstash : List (String × String)
  mcp : List (String × String)
  daytona : List (String × String)
  is_apple_silicon : Bool
deriving DecidableEq

def docker_platform (silicon : Bool) : String :=
  if silicon then "linux/arm64" else "linux/amd64"

def homebrew_prefix (silicon : Bool) : String :=
  if silicon then "/opt/homebrew" else "/usr/local"

/-- Python dict insertion: an existing key keeps its position and takes
the new value; a new key is appended. -/
def dictInsert (d : List (String × String)) (k v : String) : List (String × String) :=
  if d.any (fun p => p.1 == k) then
    d.map (fun p => if p.1 == k then (p.1, v) else p)
  else d ++ [(k, v)]

def dictExtend (d e : List (String × String)) : List (String × String) :=
  e.foldl (fun acc p => dictInsert acc p.1 p.2) d

def dictGet (d : List (String × String)) (k : String) : Option String :=
  (d.find? (fun p => p.1 == k)).map (fun p => p.2)

def envLines (pairs : List (String × String)) : String :=
  pairs.foldl (fun acc p => acc ++ p.1 ++ "=" ++ p.2 ++ "\n") ""

def archComment (silicon : Bool) : String :=
  if silicon then "Apple Silicon" else "Intel"

/-- The `backend_env` dict of `configure_mac_env_files`, in source
order. -/
def backend_env (c : SetupConfig) : List (String × String) :=
  let redis_host := if c.setup_method = "docker" then "redis" else "localhost"
  let rabbitmq_host := if c.setup_method = "docker" then "rabbitmq" else "localhost"
  let d0 := dictExtend [("ENV_MODE", "local")] c.supabase
  let d1 := dictExtend d0
    [("REDIS_HOST", redis_host), ("REDIS_PORT", "6379"),
     ("RABBITMQ_HOST", rabbitmq_host), ("RABBITMQ_PORT", "5672")]
  let d2 := dictExtend d1 c.llm
  let d3 := dictExtend d2 c.search
  let d4 := dictExtend d3 c.rapidapi
  let d5 := dictExtend d4 c.smithery
  let d6 := dictExtend d5 c.qstash
  let d7 := dictExtend d6 c.mcp
  let d8 := dictExtend d7 c.daytona
  let d9 := dictExtend d8
    [("NEXT_PUBLIC_URL", "http://localhost:3000"),
     ("DOCKER_PLATFORM", docker_platform c.is_apple_silicon),
     ("HOMEBREW_PREFIX", homebrew_prefix c.is_apple_silicon),
     ("MAC_ARCHITECTURE", if c.is_apple_silicon then "arm64" else "x86_64")]
  if c.is_apple_silicon then
    dictExtend d9 [("DOCKER_BUILDKIT", "1"), ("DOCKER_DEFAULT_PLATFORM", "linux/arm64")]
  else d9

def backend_env_content (c : SetupConfig) : String :=
  "# Generated by Suna Mac setup script\n" ++
  "# Architecture: " ++ archComment c.is_apple_silicon ++ "\n" ++
  "# Setup Method: " ++ c.setup_method ++ "\n\n" ++
  envLines (backend_env c)

/-- The `frontend_env` dict; the two supabase lookups raise `KeyError`
(`none`) when the key was never collected. -/
def frontend_env (c : SetupConfig) : Option (List (String × String)) :=
  match dictGet c.supabase "SUPABASE_URL", dictGet c.supabase "SUPABASE_ANON_KEY" with
  | some url, some anon =>
    some [("NEXT_PUBLIC_SUPABASE_URL", url),
          ("NEXT_PUBLIC_SUPABASE_ANON_KEY", anon),
          ("NEXT_PUBLIC_BACKEND_URL", "http://localhost:8000/api"),
          ("NEXT_PUBLIC_URL", "http://localhost:3000"),
          ("NEXT_PUBLIC_ENV_MODE", "LOCAL"),
          ("NEXT_PUBLIC_MAC_ARCHITECTURE",
            if c.is_apple_silicon then "arm64" else "x86_64")]
  | _, _ => none

def frontend_env_content (c : SetupConfig) : Option String :=
  (frontend_env c).map (fun pairs =>
    "# Generated by Suna Mac setup script\n" ++
    "# Architecture: " ++ archComment c.is_apple_silicon ++ "\n\n" ++
    envLines pairs)

/-! ### File-system semantics of the env-file writes -/

inductive FsOp
  | openTrunc (path : String)
  | writeAll (path : String) (content : String)
  | renameFile (src dst : String)
deriving DecidableEq

def FsOp.isRenameOp : FsOp → Bool
  | FsOp.renameFile _ _ => true
  | _ => false

def applyOp (fs : String → Option String) : FsOp → String → Option String
  | FsOp.openTrunc p, q => if q = p then some "" else fs q
  | FsOp.writeAll p c, q => if q = p then some c else fs q
  | FsOp.renameFile s d, q => if q = d then fs s else if q = s then none else fs q

def applyOps (fs : String → Option String) (ops : List FsOp) : String → Option String :=
  ops.foldl applyOp fs

/-- The file-system operations performed by `configure_mac_env_files`:
a truncating open followed by the write, for each of the two files (no
temporary file, no rename).  When the frontend dict raises (`none`) the
exception fires before the frontend file is opened. -/
def configure_mac_env_files_ops (c : SetupConfig) : List FsOp :=
  [FsOp.openTrunc "backend/.env",
   FsOp.writeAll "backend/.env" (backend_env_content c)] ++
  (match frontend_env_content c with
   | some s => [FsOp.openTrunc "frontend/.env.local",
                FsOp.writeAll "frontend/.env.local" s]
   | none => [])

/-- A pre-existing file system where `backend/.env` holds old content. -/
def fsWithOldBackendEnv : String → Option String :=
  fun p => if p = "backend/.env" then some "# old content\n" else none

/-! ### test_mac_deployment.py: service connectivity test

`test_service_connectivity` probes three fixed URLs once each and
passes when at least one returned HTTP 200; `probe url` is `some code`
for a response and `none` for an exception. -/

def connectivityServices : List (String × String) :=
  [("Frontend", "http://localhost:3000"),
   ("Backend Health", "http://localhost:8000/health"),
   ("Backend API", "http://localhost:8000/api")]

def test_service_connectivity (probe : String → Option Nat) : Bool :=
  decide (0 < connectivityServices.countP (fun s => probe s.2 == some 200))

/-! ### Concrete example inputs used by witnesses and counterexamples -/

def cfgEx : SetupConfig :=
  { setup_method := "docker",
    supabase := [("SUPABASE_URL", "http://localhost:54321"),
                 ("SUPABASE_ANON_KEY", "anon-key"),
                 ("SUPABASE_SERVICE_ROLE_KEY", "service-key")],
    llm := [("OPENAI_API_KEY", "sk-test")],
    search := [("TAVILY_API_KEY", "tv-test")],
    rapidapi := [("RAPID_API_KEY", "rk-test")],
    smithery := [("SMITHERY_API_KEY", "sm-test")],
    qstash := [("QSTASH_TOKEN", "qs-test")],
    mcp := [("MCP_CREDENTIAL_ENCRYPTION_KEY", "mc-test")],
    daytona := [("DAYTONA_API_KEY", "dk-test")],
    is_apple_silicon := true }

/-- Same collected data as `cfgEx` after dict semantics (the repeated
`RAPID_API_KEY` keeps its position and takes the last value), yet a
structurally different input record. -/
def cfgEx2 : SetupConfig :=
  { cfgEx with rapidapi := [("RAPID_API_KEY", "overwritten"), ("RAPID_API_KEY", "rk-test")] }

def envOk : StartEnv :=
  { dockerInfo := SpawnOutcome.exited 0,
    openApp := SpawnOutcome.exited 0,
    dockerInfoRetry := fun _ => SpawnOutcome.exited 0,
    backendEnvExists := true,
    frontendEnvExists := true,
    svc := fun _ => true }

/-- A system on which the docker binary cannot be located. -/
def envNoDocker : StartEnv :=
  { envOk with dockerInfo := SpawnOutcome.binMissing }

/-- Executors for witness runs: all steps succeed. -/
def execAllOk : Nat → StepResult := fun _ => StepResult.success

/-- Executors for witness runs: step 1 succeeds, step 2 is interrupted. -/
def execIntAt2 : Nat → StepResult :=
  fun j => if j = 1 then StepResult.success else StepResult.interrupt

/-! ## Theorems -/

/-! ### General lemmas about the orchestrator trace -/

theorem invokedSteps_eq (cs : Nat) (exec : Nat → StepResult) :
    invokedSteps cs exec = invokedListAux cs exec macSetupSteps := rfl

theorem invokedListAux_nil (cs : Nat) (exec : Nat → StepResult) :
    invokedListAux cs exec [] = [] := rfl

theorem invokedListAux_cons_skip (cs a : Nat) (exec : Nat → StepResult) (t : List Nat)
    (h : ¬ cs ≤ a) : invokedListAux cs exec (a :: t) = invokedListAux cs exec t := by
  simp [invokedListAux, runStepsTrace, if_neg h]

theorem invokedListAux_cons_success (cs a : Nat) (exec : Nat → StepResult) (t : List Nat)
    (h : cs ≤ a) (hx : exec a = StepResult.success) :
    invokedListAux cs exec (a :: t) = a :: invokedListAux cs exec t := by
  simp [invokedListAux, runStepsTrace, if_pos h, hx, invokeOf]

theorem invokedListAux_cons_stop (cs a : Nat) (exec : Nat → StepResult) (t : List Nat)
    (h : cs ≤ a) (hx : exec a ≠ StepResult.success) :
    invokedListAux cs exec (a :: t) = [a] := by
  rcases hxa : exec a with _ | _ | _
  · exact absurd hxa hx
  · simp [invokedListAux, runStepsTrace, if_pos h, hxa, invokeOf]
  · simp [invokedListAux, runStepsTrace, if_pos h, hxa, invokeOf]

theorem invokedListAux_mem (cs : Nat) (exec : Nat → StepResult) :
    ∀ L : List Nat, ∀ i ∈ invokedListAux cs exec L, cs ≤ i ∧ i ∈ L := by
  intro L
  induction L with
  | nil => simp [invokedListAux_nil]
  | cons a t ih =>
    intro i hi
    by_cases hca : cs ≤ a
    · by_cases hax : exec a = StepResult.success
      · rw [invokedListAux_cons_success cs a exec t hca hax] at hi
        rcases List.mem_cons.mp hi with rfl | hi
        · exact ⟨hca, List.mem_cons_self _ _⟩
        · rcases ih i hi with ⟨h1, h2⟩
          exact ⟨h1, List.mem_cons_of_mem _ h2⟩
      · rw [invokedListAux_cons_stop cs a exec t hca hax] at hi
        rcases List.mem_singleton.mp hi with rfl
        exact ⟨hca, List.mem_cons_self _ _⟩
    · rw [invokedListAux_cons_skip cs a exec t hca] at hi
      rcases ih i hi with ⟨h1, h2⟩
      exact ⟨h1, List.mem_cons_of_mem _ h2⟩

theorem invokedListAux_reaches (cs : Nat) (exec : Nat → StepResult) (i : Nat) :
    ∀ L : List Nat, L.Pairwise (· < ·) → i ∈ L → cs ≤ i →
      (∀ j ∈ L, cs ≤ j → j < i → exec j = StepResult.success) →
      i ∈ invokedListAux cs exec L := by
  intro L
  induction L with
  | nil => simp
  | cons a t ih =>
    intro hpw hiL hcsi hall
    rcases List.pairwise_cons.mp hpw with ⟨hlt, hpw'⟩
    by_cases hai : a = i
    · subst hai
      by_cases hax : exec a = StepResult.success
      · rw [invokedListAux_cons_success cs a exec t hcsi hax]
        exact List.mem_cons_self _ _
      · rw [invokedListAux_cons_stop cs a exec t hcsi hax]
        exact List.mem_singleton.mpr rfl
    · have hit : i ∈ t := by
        rcases List.mem_cons.mp hiL with h | h
        · exact absurd h.symm hai
        · exact h
      have hrec : i ∈ invokedListAux cs exec t :=
        ih hpw' hit hcsi (fun j hj => hall j (List.mem_cons_of_mem _ hj))
      by_cases hca : cs ≤ a
      · have hax : exec a = StepResult.success :=
          hall a (List.mem_cons_self _ _) hca (hlt i hit)
        rw [invokedListAux_cons_success cs a exec t hca hax]
        exact List.mem_cons_of_mem _ hrec
      · rw [invokedListAux_cons_skip cs a exec t hca]
        exact hrec

theorem invokedListAux_sublist (cs : Nat) (exec : Nat → StepResult) :
    ∀ L : List Nat, List.Sublist (invokedListAux cs exec L) L := by
  intro L
  induction L with
  | nil => simp [invokedListAux_nil]
  | cons a t ih =>
    by_cases hca : cs ≤ a
    · by_cases hax : exec a = StepResult.success
      · rw [invokedListAux_cons_success cs a exec t hca hax]
        exact List.Sublist.cons₂ a ih
      · rw [invokedListAux_cons_stop cs a exec t hca hax]
        exact List.Sublist.cons₂ a (List.nil_sublist t)
    · rw [invokedListAux_cons_skip cs a exec t hca]
      exact List.Sublist.cons a ih

theorem invokedListAux_all_success (cs : Nat) (exec : Nat → StepResult) :
    ∀ L : List Nat, (∀ j ∈ L, cs ≤ j → exec j = StepResult.success) →
      invokedListAux cs exec L = L.filter (fun j => decide (cs ≤ j)) := by
  intro L
  induction L with
  | nil => simp [invokedListAux_nil]
  | cons a t ih =>
    intro hall
    have iht := ih (fun j hj => hall j (List.mem_cons_of_mem _ hj))
    by_cases hca : cs ≤ a
    · have hax : exec a = StepResult.success := hall a (List.mem_cons_self _ _) hca
      rw [invokedListAux_cons_success cs a exec t hca hax, iht, List.filter_cons]
      simp [hca]
    · rw [invokedListAux_cons_skip cs a exec t hca, iht, List.filter_cons]
      simp [hca]

theorem filter_le_range' :
    ∀ n a k : Nat, a ≤ k → k ≤ a + n →
      (List.range' a n).filter (fun j => decide (k ≤ j)) = List.range' k (a + n - k) := by
  intro n
  induction n with
  | zero =>
    intro a k h1 h2
    have hk : k = a := Nat.le_antisymm h2 h1
    subst hk
    simp
  | succ m ih =>
    intro a k h1 h2
    rw [List.range'_succ]
    by_cases hka : k ≤ a
    · have hk : k = a := Nat.le_antisymm hka h1
      subst hk
      have hrest : (List.range' (k + 1) m).filter (fun j => decide (k ≤ j)) =
          List.range' (k + 1) m := by
        rw [List.filter_eq_self]
        intro x hx
        have := (List.mem_range'_1.mp hx).1
        simpa using Nat.le_of_succ_le this
      have hlen : k + (m + 1) - k = m + 1 := by omega
      rw [List.filter_cons, hlen, List.range'_succ]
      simp [hrest]
    · have ha : a < k := Nat.lt_of_not_le hka
      have hstep := ih (a + 1) k (by omega) (by omega)
      rw [List.filter_cons]
      have hdec : (decide (k ≤ a)) = false := by simpa using hka
      rw [hdec]
      simp only [Bool.false_eq_true, if_false]
      rw [hstep]
      congr 1
      omega

theorem runStepsOk_success (cs : Nat) (exec : Nat → StepResult) :
    ∀ L : List Nat, runStepsOk cs exec L = true →
      ∀ j ∈ L, cs ≤ j → exec j = StepResult.success := by
  intro L
  induction L with
  | nil => simp
  | cons a t ih =>
    intro hok j hj hcsj
    by_cases hca : cs ≤ a
    · rcases hx : exec a with _ | _ | _ <;>
        simp only [runStepsOk, if_pos hca, hx] at hok
      · rcases List.mem_cons.mp hj with rfl | hjt
        · exact hx
        · exact ih hok j hjt hcsj
      · exact absurd hok (by simp)
      · exact absurd hok (by simp)
    · simp only [runStepsOk, if_neg hca] at hok
      rcases List.mem_cons.mp hj with rfl | hjt
      · exact absurd hcsj hca
      · exact ih hok j hjt hcsj

theorem save_bound (cs i : Nat) (exec : Nat → StepResult)
    (hx : exec i ≠ StepResult.success) :
    ∀ L : List Nat, L.Pairwise (· < ·) → i ∈ L → cs ≤ i →
      ∀ s, SetupEvent.save s ∈ runStepsTrace cs exec L → s ≤ i := by
  intro L
  induction L with
  | nil => simp [runStepsTrace]
  | cons a t ih =>
    intro hpw hiL hcsi s hs
    rcases List.pairwise_cons.mp hpw with ⟨hlt, hpw'⟩
    by_cases hca : cs ≤ a
    · rcases hax : exec a with _ | _ | _
      · have hai : a ≠ i := fun h => hx (h ▸ hax)
        have hit : i ∈ t := by
          rcases List.mem_cons.mp hiL with h | h
          · exact absurd h.symm hai
          · exact h
        have hlt' : a < i := hlt i hit
        simp only [runStepsTrace, if_pos hca, hax, List.mem_cons] at hs
        rcases hs with h | h | h
        · cases h
        · have : s = a + 1 := by injection h
          omega
        · exact ih hpw' hit hcsi s h
      · simp only [runStepsTrace, if_pos hca, hax, List.mem_cons, List.not_mem_nil,
          or_false] at hs
        cases hs
      · simp only [runStepsTrace, if_pos hca, hax, List.mem_cons, List.not_mem_nil,
          or_false] at hs
        cases hs
    · have hai : a ≠ i := fun h => hca (h ▸ hcsi)
      have hit : i ∈ t := by
        rcases List.mem_cons.mp hiL with h | h
        · exact absurd h.symm hai
        · exact h
      simp only [runStepsTrace, if_neg hca] at hs
      exact ih hpw' hit hcsi s hs

theorem macSetupSteps_pairwise : macSetupSteps.Pairwise (· < ·) := by
  decide

theorem mem_macSetupSteps (i : Nat) : i ∈ macSetupSteps ↔ 1 ≤ i ∧ i ≤ 15 := by
  simp only [macSetupSteps, List.mem_range'_1]
  omega

theorem chain'_succ_range' : ∀ s n : Nat,
    List.Chain' (fun a b => b = a + 1) (List.range' s n) := by
  intro s n
  induction n generalizing s with
  | zero => simp
  | succ m ih =>
    rw [List.range'_succ]
    cases m with
    | zero => simp
    | succ m2 =>
      rw [List.range'_succ]
      refine List.chain'_cons.mpr ⟨rfl, ?_⟩
      have h := ih (s + 1)
      rwa [List.range'_succ] at h

theorem macSetupSteps_chain :
    List.Chain' (fun a b => b = a + 1) macSetupSteps :=
  chain'_succ_range' 1 15

theorem isInfix_cons {α : Type} (a : α) {l1 l2 : List α}
    (h : List.IsInfix l1 l2) : List.IsInfix l1 (a :: l2) := by
  rcases h with ⟨s, t, rfl⟩
  exact ⟨a :: s, t, rfl⟩

theorem trace_infix (cs i : Nat) (exec : Nat → StepResult)
    (hsucc : exec i = StepResult.success) :
    ∀ L : List Nat, List.Chain' (fun a b => b = a + 1) L →
      i ∈ L → (i + 1) ∈ L → cs ≤ i →
      (∀ j ∈ L, cs ≤ j → j < i → exec j = StepResult.success) →
      List.IsInfix
        [SetupEvent.invoke i, SetupEvent.save (i + 1), SetupEvent.invoke (i + 1)]
        (runStepsTrace cs exec L) := by
  intro L
  induction L with
  | nil => simp
  | cons a t ih =>
    intro hch hiL hi1L hcsi hall
    have hpw : (a :: t).Pairwise (· < ·) := by
      have hlt : List.Chain' (· < ·) (a :: t) :=
        hch.imp (fun h => by omega)
      exact List.chain'_iff_pairwise.mp hlt
    rcases List.pairwise_cons.mp hpw with ⟨hltall, hpw'⟩
    rcases List.chain'_cons'.mp hch with ⟨hhead, hch'⟩
    by_cases hca : cs ≤ a
    · by_cases hai : a = i
      · subst hai
        have hi1t : a + 1 ∈ t := by
          rcases List.mem_cons.mp hi1L with h | h
          · omega
          · exact h
        cases t with
        | nil => simp at hi1t
        | cons b t2 =>
          have hb : b = a + 1 := hhead b rfl
          subst hb
          have hcb : cs ≤ a + 1 := by omega
          have htrace : runStepsTrace cs exec (a :: (a + 1) :: t2) =
              SetupEvent.invoke a :: SetupEvent.save (a + 1) ::
                runStepsTrace cs exec ((a + 1) :: t2) := by
            simp [runStepsTrace, if_pos hca, hsucc]
          rcases hxb : exec (a + 1) with _ | _ | _
          · refine ⟨[], SetupEvent.save (a + 1 + 1) :: runStepsTrace cs exec t2, ?_⟩
            rw [htrace]
            simp [runStepsTrace, hcb, hxb]
          · refine ⟨[], [], ?_⟩
            rw [htrace]
            simp [runStepsTrace, hcb, hxb]
          · refine ⟨[], [], ?_⟩
            rw [htrace]
            simp [runStepsTrace, hcb, hxb]
      · have hit : i ∈ t := by
          rcases List.mem_cons.mp hiL with h | h
          · exact absurd h.symm hai
          · exact h
        have hlt' : a < i := hltall i hit
        have hi1t : i + 1 ∈ t := by
          rcases List.mem_cons.mp hi1L with h | h
          · omega
          · exact h
        have hax : exec a = StepResult.success :=
          hall a (List.mem_cons_self _ _) hca hlt'
        have hrec := ih hch' hit hi1t hcsi
          (fun j hj => hall j (List.mem_cons_of_mem _ hj))
        have htrace : runStepsTrace cs exec (a :: t) =
            SetupEvent.invoke a :: SetupEvent.save (a + 1) ::
              runStepsTrace cs exec t := by
          simp [runStepsTrace, if_pos hca, hax]
        rw [htrace]
        exact isInfix_cons _ (isInfix_cons _ hrec)
    · have hai : a ≠ i := fun h => hca (h ▸ hcsi)
      have hit : i ∈ t := by
        rcases List.mem_cons.mp hiL with h | h
        · exact absurd h.symm hai
        · exact h
      have hlt' : a < i := hltall i hit
      have hi1t : i + 1 ∈ t := by
        rcases List.mem_cons.mp hi1L with h | h
        · omega
        · exact h
      have htrace : runStepsTrace cs exec (a :: t) = runStepsTrace cs exec t := by
        simp [runStepsTrace, if_neg hca]
      rw [htrace]
      exact ih hch' hit hi1t hcsi (fun j hj => hall j (List.mem_cons_of_mem _ hj))

/-! ### Claim C1: resumability -/

/-- C1. For every `k` in `1..15`, when the loaded Progress has
`current_step = k` the run invokes only steps with index at least `k`
(earlier steps are never re-executed or re-prompted), in the static
step order; every step at least `k` whose predecessors from `k` on all
succeed is invoked; and when every step from `k` on succeeds the
invoked steps are exactly `k..15` in order. -/
theorem C1_resumability (k : Nat) (exec : Nat → StepResult)
    (hk1 : 1 ≤ k) (hk15 : k ≤ 15) :
    List.Sublist (invokedSteps k exec) macSetupSteps ∧
    (∀ i ∈ invokedSteps k exec, k ≤ i) ∧
    (∀ i, k ≤ i → i ≤ 15 →
      (∀ j, k ≤ j → j < i → exec j = StepResult.success) →
      i ∈ invokedSteps k exec) ∧
    ((∀ j, k ≤ j → j ≤ 15 → exec j = StepResult.success) →
      invokedSteps k exec = List.range' k (16 - k)) := by
  refine ⟨?_, ?_, ?_, ?_⟩
  · rw [invokedSteps_eq]
    exact invokedListAux_sublist k exec macSetupSteps
  · intro i hi
    rw [invokedSteps_eq] at hi
    exact (invokedListAux_mem k exec macSetupSteps i hi).1
  · intro i hki hi15 hpre
    rw [invokedSteps_eq]
    exact invokedListAux_reaches k exec i macSetupSteps macSetupSteps_pairwise
      ((mem_macSetupSteps i).mpr ⟨by omega, hi15⟩) hki
      (fun j _ hkj hji => hpre j hkj hji)
  · intro hall
    rw [invokedSteps_eq,
      invokedListAux_all_success k exec macSetupSteps
        (fun j hj hkj => hall j hkj ((mem_macSetupSteps j).mp hj).2)]
    have h := filter_le_range' 15 1 k hk1 (by omega)
    simpa [macSetupSteps] using h

/-- Witness for C1 at `k = 3` with an all-success run: the invoked
steps are exactly `3..15`. -/
theorem C1_witness :
    List.Sublist (invokedSteps 3 execAllOk) macSetupSteps ∧
    (5 : Nat) ∈ invokedSteps 3 execAllOk ∧
    invokedSteps 3 execAllOk = List.range' 3 13 := by
  refine ⟨(C1_resumability 3 execAllOk (by decide) (by decide)).1, ?_, ?_⟩
  · exact (C1_resumability 3 execAllOk (by decide) (by decide)).2.2.1 5
      (by decide) (by decide) (fun j _ _ => rfl)
  · exact (C1_resumability 3 execAllOk (by decide) (by decide)).2.2.2
      (fun j _ _ => rfl)

/-! ### Claim C2: progress is persisted before the next step -/

/-- C2. When step `i` is reached from resume point `k` and its executor
succeeds, the trace contains, consecutively, the invocation of step
`i`, a save persisting `current_step = i + 1`, and the invocation of
step `i + 1` — i.e. the new Progress is persisted before step `i + 1`
runs; moreover a later resume from that persisted Progress never
invokes step `i` again. -/
theorem C2_persist_before_next (k i : Nat) (exec : Nat → StepResult)
    (hk1 : 1 ≤ k) (hki : k ≤ i) (hi : i < 15)
    (hpre : ∀ j, k ≤ j → j < i → exec j = StepResult.success)
    (hsucc : exec i = StepResult.success) :
    List.IsInfix
      [SetupEvent.invoke i, SetupEvent.save (i + 1), SetupEvent.invoke (i + 1)]
      (run_mac_setup k exec).1 ∧
    ∀ exec2 : Nat → StepResult, i ∉ invokedSteps (i + 1) exec2 := by
  constructor
  · exact trace_infix k i exec hsucc macSetupSteps macSetupSteps_chain
      ((mem_macSetupSteps i).mpr ⟨by omega, by omega⟩)
      ((mem_macSetupSteps (i + 1)).mpr ⟨by omega, by omega⟩)
      hki (fun j _ hkj hji => hpre j hkj hji)
  · intro exec2 hmem
    rw [invokedSteps_eq] at hmem
    have := (invokedListAux_mem (i + 1) exec2 macSetupSteps i hmem).1
    omega

/-- Witness for C2 at `k = 1`, `i = 1` with an all-success run. -/
theorem C2_witness :
    List.IsInfix [SetupEvent.invoke 1, SetupEvent.save 2, SetupEvent.invoke 2]
      (run_mac_setup 1 execAllOk).1 ∧
    1 ∉ invokedSteps 2 execAllOk := by
  exact ⟨(C2_persist_before_next 1 1 execAllOk (by decide) (by decide) (by decide)
      (fun j _ _ => rfl) rfl).1,
    (C2_persist_before_next 1 1 execAllOk (by decide) (by decide) (by decide)
      (fun j _ _ => rfl) rfl).2 execAllOk⟩

/-! ### Claim C3: subprocess count of the restart command -/

/-- C3. The claim states that `restart` makes exactly two subprocess
invocations.  On the code, a fully successful restart makes three:
`compose down` (stop), then `compose pull` and `compose up -d` (start).
This closed computation refutes the claim at the all-success input. -/
theorem C3_counterexample :
    (restart_services (fun _ => true)).1 =
      [ComposeCmd.down, ComposeCmd.pull, ComposeCmd.up] ∧
    (restart_services (fun _ => true)).1.length = 3 := by
  decide

/-- C3 (amended). For every invocation of the restart command, the
subprocess trace is: `compose down` alone when the stop fails; otherwise
`compose down` followed by the start-phase invocations (`compose pull`,
then `compose up` when the pull succeeded) — three invocations in the
all-success case.  In particular the start-phase invocations are
attempted only when the stop invocation reports success. -/
theorem C3_amended (r : ComposeCmd → Bool) :
    (restart_services r).1 =
      if r ComposeCmd.down then
        ComposeCmd.down ::
          (if r ComposeCmd.pull then [ComposeCmd.pull, ComposeCmd.up]
           else [ComposeCmd.pull])
      else [ComposeCmd.down] := by
  cases hd : r ComposeCmd.down <;> cases hp : r ComposeCmd.pull <;>
    simp [restart_services, stop_services, start_services, hd, hp]

/-! ### Claim C4: interrupt handling -/

/-- C4. The claim asserts a non-zero exit code after the interrupt
teardown.  The service-manager signal handler calls `stop_services`
and then `sys.exit(0)`: the exit code is 0, refuting the claim. -/
theorem C4_counterexample :
    ComposeCmd.down ∈ (signal_handler (fun _ => true)).1 ∧
    (signal_handler (fun _ => true)).2 = 0 := by
  decide

/-- C4 (amended). On an interrupt, the service manager performs the
best-effort teardown (its signal handler always invokes the stop
subprocess) but then exits with code 0, not a non-zero code; the setup
orchestrator, whose `KeyboardInterrupt` handler only prints, exits
non-zero and never persists a Progress past the interrupted step: every
saved `current_step` is at most `i` when step `i` did not succeed. -/
theorem C4_amended (r : ComposeCmd → Bool) (cs i : Nat) (exec : Nat → StepResult)
    (hcs : 1 ≤ cs) (hki : cs ≤ i) (hi : i ≤ 15)
    (hx : exec i ≠ StepResult.success) :
    (ComposeCmd.down ∈ (signal_handler r).1 ∧ (signal_handler r).2 = 0) ∧
    (∀ s, SetupEvent.save s ∈ (run_mac_setup cs exec).1 → s ≤ i) ∧
    setup_main cs exec = 1 := by
  refine ⟨⟨List.mem_singleton.mpr rfl, rfl⟩, ?_, ?_⟩
  · intro s hs
    exact save_bound cs i exec hx macSetupSteps macSetupSteps_pairwise
      ((mem_macSetupSteps i).mpr ⟨by omega, hi⟩) hki s hs
  · have hok : (run_mac_setup cs exec).2 = false := by
      rcases hok : (run_mac_setup cs exec).2 with _ | _
      · rfl
      · exact absurd
          (runStepsOk_success cs exec macSetupSteps hok i
            ((mem_macSetupSteps i).mpr ⟨by omega, hi⟩) hki) hx
    simp [setup_main, hok]

/-- Witness for C4: resume point 1, step 1 succeeds and step 2 is
interrupted; the saved progress never exceeds 2 and the setup exits 1,
while the service-manager handler tears down and exits 0. -/
theorem C4_witness :
    (ComposeCmd.down ∈ (signal_handler (fun _ => false)).1 ∧
      (signal_handler (fun _ => false)).2 = 0) ∧
    (2 : Nat) ≤ 2 ∧
    setup_main 1 execIntAt2 = 1 := by
  refine ⟨(C4_amended (fun _ => false) 1 2 execIntAt2 (by decide) (by decide)
      (by decide) (by decide)).1, ?_, ?_⟩
  · exact (C4_amended (fun _ => false) 1 2 execIntAt2 (by decide) (by decide)
      (by decide) (by decide)).2.1 2 (by decide)
  · exact (C4_amended (fun _ => false) 1 2 execIntAt2 (by decide) (by decide)
      (by decide) (by decide)).2.2

/-! ### Claim C5: missing binary classification -/

/-- C5. The claim asserts that a missing binary is classified without
raising, and that `start` without the docker binary exits 1 with a
classified Docker message.  On the code, `check_prerequisites` catches
only `CalledProcessError`, so the `FileNotFoundError` raised when the
docker binary is absent propagates out of `main` as an uncaught
exception with no classified error message, refuting the claim. -/
theorem C5_counterexample :
    (start_mac_main ["start"] envNoDocker).result =
      MainResult.uncaught PyExn.fileNotFoundError ∧
    (start_mac_main ["start"] envNoDocker).errorPrinted = false := by
  decide

/-- C5 (amended). Only the setup dependency checker classifies a binary
that cannot be located without raising: such a dependency simply lands
in the returned missing list.  The prerequisite check used by the start
command catches only the nonzero-exit error, so on a system whose
docker binary is absent it raises `FileNotFoundError`, and `start`
terminates with that uncaught exception instead of an exit-1 classified
message. -/
theorem C5_amended (env : StartEnv) (d : String) (r : String → SpawnOutcome)
    (hdock : env.dockerInfo = SpawnOutcome.binMissing) (hd : d ∈ dependencyNames) :
    check_prerequisites env = Except.error PyExn.fileNotFoundError ∧
    (start_mac_main ["start"] env).result =
      MainResult.uncaught PyExn.fileNotFoundError ∧
    (d ∈ check_dependencies r ↔ r d ≠ SpawnOutcome.exited 0) := by
  have hcp : check_prerequisites env = Except.error PyExn.fileNotFoundError := by
    simp [check_prerequisites, hdock]
  refine ⟨hcp, ?_, ?_⟩
  · simp [start_mac_main, hcp]
  · simp [check_dependencies, hd]

/-- Witness for C5: a concrete docker-less system and a spawn table on
which every binary is missing. -/
theorem C5_witness :
    check_prerequisites envNoDocker = Except.error PyExn.fileNotFoundError ∧
    "docker" ∈ check_dependencies (fun _ => SpawnOutcome.binMissing) := by
  refine ⟨(C5_amended envNoDocker "docker" (fun _ => SpawnOutcome.binMissing)
      rfl (by decide)).1, ?_⟩
  exact (C5_amended envNoDocker "docker" (fun _ => SpawnOutcome.binMissing)
      rfl (by decide)).2.2.mpr (by decide)

/-! ### Claim C6: health polling -/

/-- C6. The claim describes a retrying poll sleeping `interval` between
attempts up to `maxAttempts`.  The code performs exactly one
bounded-timeout request per service and never sleeps: against
always-unreachable services the code trace has two requests (one per
service) and zero sleeps, whereas the spec-modelled poll with
`maxAttempts = 3, interval = 2` has six requests and two sleeps; the
traces differ. -/
theorem C6_counterexample :
    (check_service_health (fun _ => false)).countP isSleepEvent = 0 ∧
    (check_service_health (fun _ => false)).countP isRequestEvent = 2 ∧
    (healthPollSpec (fun _ => false) 2 3 macHealthServices).countP isSleepEvent = 2 ∧
    (healthPollSpec (fun _ => false) 2 3 macHealthServices).countP isRequestEvent = 6 ∧
    check_service_health (fun _ => false) ≠
      healthPollSpec (fun _ => false) 2 3 macHealthServices := by
  decide

/-- C6 (amended). The health check makes exactly one bounded-timeout
request per service, in order, with no retrying and no sleeping; it
always terminates, and each service whose single request fails is
reported unhealthy (a warning) immediately, while each reachable
service is reported healthy. -/
theorem C6_amended (h : String → Bool) (svcs : List (String × String)) :
    (check_service_health_list h svcs).countP isRequestEvent = svcs.length ∧
    (check_service_health_list h svcs).countP isSleepEvent = 0 ∧
    (∀ s ∈ svcs, h s.2 = false →
      HealthEvent.warnReport s.1 ∈ check_service_health_list h svcs) ∧
    (∀ s ∈ svcs, h s.2 = true →
      HealthEvent.healthyReport s.1 ∈ check_service_health_list h svcs) := by
  induction svcs with
  | nil => simp [check_service_health_list]
  | cons a t ih =>
    obtain ⟨ih1, ih2, ih3, ih4⟩ := ih
    have htr : check_service_health_list h (a :: t) =
        HealthEvent.request a.2 ::
          (if h a.2 then HealthEvent.healthyReport a.1
           else HealthEvent.warnReport a.1) ::
          check_service_health_list h t := rfl
    refine ⟨?_, ?_, ?_, ?_⟩
    · rw [htr]
      cases hx : h a.2 <;>
        simp [List.countP_cons, isRequestEvent, hx, ih1]
    · rw [htr]
      cases hx : h a.2 <;>
        simp [List.countP_cons, isSleepEvent, hx, ih2]
    · intro s hs hfalse
      rw [htr]
      rcases List.mem_cons.mp hs with rfl | hst
      · simp [hfalse]
      · simp [ih3 s hst hfalse]
    · intro s hs htrue
      rw [htr]
      rcases List.mem_cons.mp hs with rfl | hst
      · simp [htrue]
      · simp [ih4 s hst htrue]

/-- Witness for C6 on the fixed service list with every probe
failing. -/
theorem C6_witness :
    (check_service_health_list (fun _ => false) macHealthServices).countP
      isRequestEvent = 2 ∧
    (check_service_health_list (fun _ => false) macHealthServices).countP
      isSleepEvent = 0 ∧
    HealthEvent.warnReport "Frontend" ∈
      check_service_health_list (fun _ => false) macHealthServices := by
  refine ⟨?_, ?_, ?_⟩
  · have h := (C6_amended (fun _ => false) macHealthServices).1
    simpa using h
  · exact (C6_amended (fun _ => false) macHealthServices).2.1
  · exact (C6_amended (fun _ => false) macHealthServices).2.2.1
      ("Frontend", "http://localhost:3000") (by decide) rfl

/-! ### Claim C7: atomic write-then-rename -/

/-- C7. The claim asserts temp-file-then-rename writes.  The code opens
`backend/.env` directly with the truncating write mode: the very first
operation empties the existing file, so a crash right after it exposes
an empty file and the prior content is lost; the operation list
contains no rename at all. -/
theorem C7_counterexample :
    applyOps fsWithOldBackendEnv ((configure_mac_env_files_ops cfgEx).take 1)
      "backend/.env" = some "" ∧
    applyOps fsWithOldBackendEnv ((configure_mac_env_files_ops cfgEx).take 1)
      "backend/.env" ≠ fsWithOldBackendEnv "backend/.env" ∧
    (configure_mac_env_files_ops cfgEx).all (fun op => !op.isRenameOp) = true := by
  decide

/-- C7 (amended). The generated config files are written by a direct
truncating open followed by a full write — no temporary file and no
rename: for every configuration the operation list contains no rename
operation, and a crash immediately after the truncating open leaves
`backend/.env` empty, losing any previously existing nonempty content.
(The Progress-record writes live in `setup.py`, outside these
sources.) -/
theorem C7_amended (c : SetupConfig) (fs : String → Option String) (old : String)
    (hold : old ≠ "") :
    applyOps fs ((configure_mac_env_files_ops c).take 1) "backend/.env" = some "" ∧
    applyOps fs ((configure_mac_env_files_ops c).take 1) "backend/.env" ≠ some old ∧
    ∀ op ∈ configure_mac_env_files_ops c, op.isRenameOp = false := by
  have h1 : applyOps fs ((configure_mac_env_files_ops c).take 1) "backend/.env" =
      some "" := by
    simp [configure_mac_env_files_ops, applyOps, applyOp]
  refine ⟨h1, ?_, ?_⟩
  · rw [h1]
    intro hcontra
    exact hold (by injection hcontra with h; exact h.symm)
  · intro op hop
    rcases hfc : frontend_env_content c with _ | s <;>
      simp [configure_mac_env_files_ops, hfc] at hop
    · rcases hop with rfl | rfl <;> rfl
    · rcases hop with rfl | rfl | rfl | rfl <;> rfl

/-- Witness for C7: crashing after the first operation on an initially
empty file system still yields an empty (not old) `backend/.env`. -/
theorem C7_witness :
    applyOps (fun _ => none) ((configure_mac_env_files_ops cfgEx).take 1)
      "backend/.env" = some "" ∧
    applyOps (fun _ => none) ((configure_mac_env_files_ops cfgEx).take 1)
      "backend/.env" ≠ some "x" ∧
    (FsOp.openTrunc "backend/.env").isRenameOp = false := by
  refine ⟨(C7_amended cfgEx (fun _ => none) "x" (by decide)).1,
    (C7_amended cfgEx (fun _ => none) "x" (by decide)).2.1,
    (C7_amended cfgEx (fun _ => none) "x" (by decide)).2.2
      (FsOp.openTrunc "backend/.env") ?_⟩
  simp [configure_mac_env_files_ops]

/-! ### Claim C8: deterministic rendering -/

/-- C8. Config-file rendering is a pure function of the collected
key-value pairs (same keys, same values, same order) and the fixed
platform facts: two runs whose merged pair lists, architecture flag and
setup method agree produce byte-identical backend and frontend file
text — in particular rendering the same input twice is
byte-identical. -/
theorem C8_render_deterministic (c1 c2 : SetupConfig)
    (hb : backend_env c1 = backend_env c2)
    (hf : frontend_env c1 = frontend_env c2)
    (hsil : c1.is_apple_silicon = c2.is_apple_silicon)
    (hm : c1.setup_method = c2.setup_method) :
    backend_env_content c1 = backend_env_content c2 ∧
    frontend_env_content c1 = frontend_env_content c2 := by
  constructor
  · simp only [backend_env_content, hb, hsil, hm]
  · simp only [frontend_env_content, hf, hsil]

/-- Witness for C8: two structurally different inputs with the same
collected pairs render to byte-identical text. -/
theorem C8_witness :
    backend_env_content cfgEx = backend_env_content cfgEx2 ∧
    frontend_env_content cfgEx = frontend_env_content cfgEx2 :=
  C8_render_deterministic cfgEx cfgEx2 (by decide) (by decide) rfl rfl

/-! ### Claim C9: CLI dispatch -/

/-- C9. With no positional argument the invocation behaves exactly as
with the `start` command; `help` prints usage and exits 0 without any
prerequisite check, for every environment; and an unknown command (any
command outside the known list, on an environment whose prerequisite
check completes without raising) prints an error and exits 1. -/
theorem C9_cli_dispatch (env : StartEnv) (cmd : String) (r : Bool)
    (hunk : cmd ∉ knownCommands) (hpr : check_prerequisites env = Except.ok r) :
    start_mac_main [] env = start_mac_main ["start"] env ∧
    start_mac_main ["help"] env =
      { result := MainResult.exitCode 0, usagePrinted := true,
        prereqChecked := false, errorPrinted := false } ∧
    (start_mac_main [cmd] env).errorPrinted = true ∧
    (start_mac_main [cmd] env).result = MainResult.exitCode 1 := by
  simp only [knownCommands, List.mem_cons, List.not_mem_nil, or_false, not_or] at hunk
  obtain ⟨h1, h2, h3, h4, h5, h6, h7, h8, h9, h10⟩ := hunk
  refine ⟨rfl, rfl, ?_, ?_⟩ <;>
  · cases r <;>
      simp [start_mac_main, dispatch, hpr, h1, h2, h3, h4, h5, h6, h7, h8, h9, h10]

/-- Witness for C9 on a healthy environment and the unknown command
string `"bogus"`. -/
theorem C9_witness :
    start_mac_main [] envOk = start_mac_main ["start"] envOk ∧
    (start_mac_main ["help"] envOk).prereqChecked = false ∧
    (start_mac_main ["bogus"] envOk).errorPrinted = true ∧
    (start_mac_main ["bogus"] envOk).result = MainResult.exitCode 1 := by
  have h := C9_cli_dispatch envOk "bogus" true (by decide) rfl
  exact ⟨h.1, by rw [h.2.1], h.2.2.1, h.2.2.2⟩

/-! ### Claim C10: connectivity test threshold -/

/-- C10. The deployment test suite connectivity check passes exactly
when at least one of the three probed endpoints returns HTTP 200 — it
never requires all services to be reachable. -/
theorem C10_connectivity_any (probe : String → Option Nat) :
    test_service_connectivity probe = true ↔
      ∃ s ∈ connectivityServices, probe s.2 = some 200 := by
  simp [test_service_connectivity, List.countP_pos_iff]

/-- Witness for C10: only the backend health endpoint responding with
200 already makes the test pass. -/
theorem C10_witness :
    test_service_connectivity
      (fun u => if u = "http://localhost:8000/health" then some 200 else none) =
      true := by
  refine (C10_connectivity_any _).mpr ?_
  exact ⟨("Backend Health", "http://localhost:8000/health"), by decide, by decide⟩

end Suna
